import Mathlib

/-
Verification of the mosaic-subnet validator round engine
(`mosaic_subnet/validator/__init__.py` and friends).

The stateful Python code is shallowly embedded as pure Lean functions:
dictionaries become association lists in insertion order (Python dicts
preserve insertion order), floats become rationals, fallible calls become
`Except`, and external effects (the miner RPC fan-out, the ledger vote, the
wall clock) become explicit inputs to the round function.
-/

namespace Mosaic

abbrev Uid := Nat

/-- Opaque byte payload returned by a miner (the generated image bytes). -/
abbrev Payload := List Nat

/-- One miner response as produced by `get_miner_generation_with_elapsed`:
an optional payload (absent on failure or timeout) and the elapsed time. -/
structure MinerResponse where
  answer : Option Payload
  elapsed : ℚ
deriving DecidableEq, Repr

/-- A scoring backend (`model.get_similarity`): may raise, embedded as `Except`. -/
abbrev Scorer := Payload → String → Except String ℚ

/-- Embeds `Validator.calculate_score`: call the backend, and on any
exception log it and return `0.0`. -/
def calculate_score (model : Scorer) (img : Payload) (prompt : String) : ℚ :=
  match model img prompt with
  | Except.ok s => s
  | Except.error _ => 0

/-- Embeds one iteration of the scoring loop of `Validator.validate_step`
(lines 80-91): skip the miner when `not miner_answer` (absent or empty
payload), compute the score, skip when it is `0`, otherwise record
`(uid, score, elapsed)` into `score_dict` and `duration_dict`. -/
def score_entry (model : Scorer) (prompt : String) (r : Uid × MinerResponse) :
    Option (Uid × ℚ × ℚ) :=
  match r.2.answer with
  | none => none
  | some p =>
    if p.isEmpty then none
    else
      let s := calculate_score model p prompt
      if s = 0 then none else some (r.1, s, r.2.elapsed)

/-- Boolean form of "this miner is dropped from the round": absent or empty
payload, or a raw score of exactly `0` (including scorer exceptions, which
`calculate_score` converts to `0`). -/
def is_dropped (model : Scorer) (prompt : String) (r : Uid × MinerResponse) : Bool :=
  match r.2.answer with
  | none => true
  | some p => p.isEmpty || (if calculate_score model p prompt = 0 then true else false)

/-- The combined `score_dict` and `duration_dict` of `validate_step`, in
miner iteration order, as a list of `(uid, raw_score, elapsed)`. -/
def build_score_entries (model : Scorer) (prompt : String)
    (responses : List (Uid × MinerResponse)) : List (Uid × ℚ × ℚ) :=
  responses.filterMap (score_entry model prompt)

/-- Modelled from the spec: `normalize_score` lives in
`mosaic_subnet/validator/utils.py`, which is not under `src/`; only its
caller is.  Spec section 4.4 (Normalize): deterministic, produces
`normalized_score ≥ 0`, scales scores into a comparable range via
score/Σscore, with latency as a penalizing factor (monotone non-increasing
in elapsed).  We model it as `n(uid) = (raw / Σ raw) * (1 / (1 + elapsed))`
over the joint `(uid, raw_score, elapsed)` entries. -/
def normalize_score (entries : List (Uid × ℚ × ℚ)) : List (Uid × ℚ) :=
  let total := (entries.map fun e => e.2.1).sum
  entries.map fun e => (e.1, e.2.1 / total * (1 / (1 + e.2.2)))

/-- Modelled from the spec: `weight_score` lives in
`mosaic_subnet/validator/utils.py`, which is not under `src/`.  Spec
section 4.4 (Weight): `weight = normalized_score / Σ normalized_score`,
each in `[0,1]`, summing to at most 1, never introducing a uid absent from
the input. -/
def weight_score (normalized : List (Uid × ℚ)) : List (Uid × ℚ) :=
  let total := (normalized.map Prod.snd).sum
  normalized.map fun e => (e.1, e.2 / total)

/-- Embeds the `weight_data` list of `validate_step` (lines 100-108):
`zip(weighted_scores.keys(), score_dict.values(), duration_dict.values(),
normalized_scores.values(), weighted_scores.values())`. -/
def weight_data (entries : List (Uid × ℚ × ℚ)) (normalized weighted : List (Uid × ℚ)) :
    List (Uid × ℚ × ℚ × ℚ × ℚ) :=
  List.zip (weighted.map Prod.fst)
    (List.zip (entries.map fun e => e.2.1)
      (List.zip (entries.map fun e => e.2.2)
        (List.zip (normalized.map Prod.snd) (weighted.map Prod.snd))))

/-- Embeds the `WeightHistory` pydantic model: one round record.  The
`time: datetime` field filled by `datetime.now()` is an external wall-clock
effect and is not modelled; `data` is the `weight_data` tuple list. -/
structure WeightHistory where
  data : List (Uid × ℚ × ℚ × ℚ × ℚ)
deriving DecidableEq, Repr

/-- The observable outcome of one call to `validate_step`: the surviving
score entries, the record appended to `weights_histories` (if any), the
`(uids, weights)` passed to `c_client.vote` (if the call was made), and
whether that vote call raised (the exception is caught and logged). -/
structure RoundResult where
  score_dict : List (Uid × ℚ × ℚ)
  record : Option WeightHistory
  vote : Option (List Uid × List ℚ)
  vote_failed : Bool
deriving DecidableEq, Repr

/-- Embeds the round computation of `Validator.validate_step` up to and
including the choice whether to call `c_client.vote` (lines 68-125):
build `score_dict`, return early when it is empty, normalize and weight,
append the history record, filter weights to the strictly positive ones,
return early when none remain, otherwise prepare the `(uids, weights)`
vote arguments. -/
def round_outputs (model : Scorer) (prompt : String)
    (responses : List (Uid × MinerResponse)) : RoundResult :=
  let score_dict := build_score_entries model prompt responses
  if score_dict.isEmpty then
    { score_dict := score_dict, record := none, vote := none, vote_failed := false }
  else
    let normalized := normalize_score score_dict
    let weighted := weight_score normalized
    let record : WeightHistory := { data := weight_data score_dict normalized weighted }
    let weighted_pos := weighted.filter fun e => decide (0 < e.2)
    if weighted_pos.isEmpty then
      { score_dict := score_dict, record := some record, vote := none, vote_failed := false }
    else
      { score_dict := score_dict
        record := some record
        vote := some (weighted_pos.map Prod.fst, weighted_pos.map Prod.snd)
        vote_failed := false }

/-- Embeds `Validator.validate_step`.  External inputs: the scoring backend,
the sampled prompt, the gathered miner responses in `modules_info` key
order, and the outcome of the `c_client.vote` network call.  The vote call
is made exactly when the round prepared vote arguments, and its
`try/except` (lines 121-130) absorbs any exception: a failing submission
only flips `vote_failed`, leaving every other output of the round
untouched. -/
def validate_step (model : Scorer) (prompt : String)
    (responses : List (Uid × MinerResponse)) (vote_outcome : Except String Unit) :
    RoundResult :=
  let r := round_outputs model prompt responses
  match r.vote with
  | none => r
  | some _ =>
    { r with vote_failed := match vote_outcome with
        | Except.ok _ => false
        | Except.error _ => true }

/-- Embeds the sleep computation of `Validator.validation_loop` (lines
145-149): `if elapsed < iteration_interval: sleep(interval - elapsed)`,
otherwise no sleep at all. -/
def sleep_time (elapsed interval : ℚ) : ℚ :=
  if elapsed < interval then interval - elapsed else 0

/-- Outcome of one `asyncio.run(self.validate_step())` round as seen by the
scheduler loop: either it completes with some elapsed time, or it raises. -/
inductive RoundOutcome where
  | ok (elapsed : ℚ)
  | failed (msg : String) (elapsed : ℚ)
deriving DecidableEq, Repr

/-- The body of one `while True` iteration before the `except` clause:
on success it sleeps `sleep_time`; an exception escapes the round (and
skips the sleep). -/
def loop_body (interval : ℚ) : RoundOutcome → Except String ℚ
  | RoundOutcome.ok e => Except.ok (sleep_time e interval)
  | RoundOutcome.failed msg _ => Except.error msg

/-- One full iteration of `validation_loop`, `except` clause included: an
exception is printed as a traceback and swallowed, the loop continues
without sleeping.  Returns the sleep actually performed. -/
def loop_step (interval : ℚ) (o : RoundOutcome) : ℚ :=
  match loop_body interval o with
  | Except.ok s => s
  | Except.error _ => 0

/-- Runs `validation_loop` against a finite prefix of round outcomes,
returning the sleep performed by each completed iteration. -/
def validation_loop_run (interval : ℚ) : List RoundOutcome → List ℚ
  | [] => []
  | o :: rest => loop_step interval o :: validation_loop_run interval rest

/-- Embeds `collections.deque(maxlen=k).append`: append on the right and,
when over capacity, evict from the left. -/
def dequeAppend (k : Nat) (d : List α) (x : α) : List α :=
  let d' := d ++ [x]
  if d'.length ≤ k then d' else d'.drop (d'.length - k)

/-- The capacity of `self.weights_histories = deque(maxlen=10)`. -/
def weights_histories_maxlen : Nat := 10

/-- Embeds `ValidatorSettings` (`mosaic_subnet/validator/_config.py`),
restricted to the fields the claims touch. -/
structure ValidatorSettings where
  model : String := "hps"
  clip_model : String := "laion/CLIP-ViT-L-14-laion2B-s32B-b82K"
  api_url : Option String := none
  api_key : Option String := none
  iteration_interval : ℚ := 60
  call_timeout : ℚ := 30
deriving DecidableEq, Repr

/-- The scoring backend selected by `Validator.__init__`. -/
inductive ModelChoice where
  | clip (model_name : String)
  | api_validator (api_url : String) (api_key : Option String)
  | hps
deriving DecidableEq, Repr

/-- Embeds the backend-selection block of `Validator.__init__` (lines
41-51): `clip` picks CLIP with `settings.clip_model`; `api` requires a
truthy `settings.api_url` (neither `None` nor the empty string) and raises
`ValueError` otherwise; anything else falls through to HPS. -/
def select_model (s : ValidatorSettings) : Except String ModelChoice :=
  if s.model = "clip" then Except.ok (ModelChoice.clip s.clip_model)
  else if s.model = "api" then
    match s.api_url with
    | none => Except.error "API URL is required when using api model"
    | some u =>
      if u = "" then Except.error "API URL is required when using api model"
      else Except.ok (ModelChoice.api_validator u s.api_key)
  else Except.ok ModelChoice.hps

/-- The black-box CLIP model underneath `CLIP.get_similarity`: the torch
forward pass producing `logits_per_image` for an image and a prompt. -/
structure CLIPModelFn where
  logits_per_image : Payload → String → List ℚ

/-- Embeds `CLIP.get_similarity` (`mosaic_subnet/validator/model.py`, lines
21-30): run the model and return `outputs.logits_per_image.sum().tolist()`,
with no clamping of any kind. -/
def CLIP.get_similarity (m : CLIPModelFn) (file : Payload) (prompt : String) : ℚ :=
  (m.logits_per_image file prompt).sum

/- Concrete instances used by witnesses. -/

/-- A backend that scores every payload as `2`. -/
def okTwo : Scorer := fun _ _ => Except.ok 2

/-- A black-box CLIP instance whose logit sum is `-1` on every input:
`get_similarity` passes the model output through with no clamping, so the
returned score is negative. -/
def neg_clip : CLIPModelFn := ⟨fun _ _ => [-1]⟩

/-- A black-box CLIP instance with the single non-negative logit `1`. -/
def pos_clip : CLIPModelFn := ⟨fun _ _ => [1]⟩

/-- A 2-miner response set in which both miners answer with non-empty
payloads. -/
def rs0 : List (Uid × MinerResponse) :=
  [(1, { answer := some [2], elapsed := 1 }), (2, { answer := some [6], elapsed := 3 })]

/-- A backend scoring a payload by the sum of its bytes. -/
def byteSum : Scorer := fun p _ => Except.ok ((p.sum : Nat) : ℚ)

/-- The response set `rs0` extended with a miner (uid 5) whose payload is
absent (failure or timeout). -/
def rs1 : List (Uid × MinerResponse) := rs0 ++ [(5, { answer := none, elapsed := 2 })]

/-- A response set in which the only miner timed out. -/
def rsBad : List (Uid × MinerResponse) := [(7, { answer := none, elapsed := 30 })]

/-- Eleven pairwise-distinct round records. -/
def xs11 : List WeightHistory := (List.range 11).map fun i => { data := [(i, 0, 0, 0, 0)] }

/- Helper lemmas about the round pipeline. -/

theorem validate_step_record (m : Scorer) (p : String) (rs : List (Uid × MinerResponse))
    (o : Except String Unit) :
    (validate_step m p rs o).record = (round_outputs m p rs).record := by
  unfold validate_step
  cases h : (round_outputs m p rs).vote <;> simp [h]

theorem validate_step_vote (m : Scorer) (p : String) (rs : List (Uid × MinerResponse))
    (o : Except String Unit) :
    (validate_step m p rs o).vote = (round_outputs m p rs).vote := by
  unfold validate_step
  cases h : (round_outputs m p rs).vote <;> simp [h]

theorem validate_step_score_dict (m : Scorer) (p : String) (rs : List (Uid × MinerResponse))
    (o : Except String Unit) :
    (validate_step m p rs o).score_dict = (round_outputs m p rs).score_dict := by
  unfold validate_step
  cases h : (round_outputs m p rs).vote <;> simp [h]

theorem round_outputs_vote_some_record (m : Scorer) (p : String)
    (rs : List (Uid × MinerResponse)) :
    ∀ v, (round_outputs m p rs).vote = some v →
      ∃ rec, (round_outputs m p rs).record = some rec := by
  intro v hv
  simp only [round_outputs] at hv ⊢
  split at hv
  · simp at hv
  · split at hv
    · simp at hv
    · rename_i h1 h2
      simp only [if_neg h1, if_neg h2]
      exact ⟨_, rfl⟩

theorem round_outputs_score_dict (m : Scorer) (p : String) (rs : List (Uid × MinerResponse)) :
    (round_outputs m p rs).score_dict = build_score_entries m p rs := by
  simp only [round_outputs]
  split
  · rfl
  · split <;> rfl

theorem round_outputs_record_data (m : Scorer) (p : String) (rs : List (Uid × MinerResponse)) :
    ∀ rec, (round_outputs m p rs).record = some rec →
      rec.data = weight_data (build_score_entries m p rs)
        (normalize_score (build_score_entries m p rs))
        (weight_score (normalize_score (build_score_entries m p rs))) := by
  intro rec hrec
  simp only [round_outputs] at hrec
  split at hrec
  · simp at hrec
  · split at hrec <;>
    · simp only [Option.some.injEq] at hrec
      rw [← hrec]

theorem round_outputs_vote_args (m : Scorer) (p : String) (rs : List (Uid × MinerResponse)) :
    ∀ uids ws, (round_outputs m p rs).vote = some (uids, ws) →
      uids = ((weight_score (normalize_score (build_score_entries m p rs))).filter
        fun e => decide (0 < e.2)).map Prod.fst ∧
      ws = ((weight_score (normalize_score (build_score_entries m p rs))).filter
        fun e => decide (0 < e.2)).map Prod.snd := by
  intro uids ws hv
  simp only [round_outputs] at hv
  split at hv
  · simp at hv
  · split at hv
    · simp at hv
    · simp only [Option.some.injEq, Prod.mk.injEq] at hv
      exact ⟨hv.1.symm, hv.2.symm⟩

theorem normalize_score_fst (e : List (Uid × ℚ × ℚ)) :
    (normalize_score e).map Prod.fst = e.map Prod.fst := by
  simp [normalize_score, List.map_map]

theorem weight_score_fst (n : List (Uid × ℚ)) :
    (weight_score n).map Prod.fst = n.map Prod.fst := by
  simp [weight_score, List.map_map]

theorem mem_weight_data_fst (e : List (Uid × ℚ × ℚ)) (n w : List (Uid × ℚ)) (u : Uid)
    (hu : u ∈ (weight_data e n w).map fun t => t.1) : u ∈ w.map Prod.fst := by
  rcases List.mem_map.1 hu with ⟨t, ht, rfl⟩
  obtain ⟨a, b⟩ := t
  exact (List.of_mem_zip ht).1

theorem mem_build_score_entries (m : Scorer) (p : String) (rs : List (Uid × MinerResponse))
    (x : Uid × ℚ × ℚ) (hx : x ∈ build_score_entries m p rs) :
    ∃ r ∈ rs, ∃ pld, r.2.answer = some pld ∧ pld.isEmpty = false ∧
      calculate_score m pld p ≠ 0 ∧ x = (r.1, calculate_score m pld p, r.2.elapsed) := by
  rcases List.mem_filterMap.1 hx with ⟨r, hr, hsome⟩
  refine ⟨r, hr, ?_⟩
  revert hsome
  unfold score_entry
  cases hans : r.2.answer with
  | none => simp
  | some pld =>
    by_cases hemp : pld.isEmpty
    · simp [hemp]
    · by_cases hz : calculate_score m pld p = 0
      · simp [hemp, hz]
      · simp only [hemp, hz, Bool.false_eq_true, if_false, Option.some.injEq]
        intro h
        exact ⟨pld, rfl, Bool.eq_false_iff.2 hemp, hz, h.symm⟩

theorem record_uid_mem_scores (m : Scorer) (p : String) (rs : List (Uid × MinerResponse)) :
    ∀ rec, (round_outputs m p rs).record = some rec →
      ∀ u ∈ rec.data.map (fun t => t.1), u ∈ (build_score_entries m p rs).map Prod.fst := by
  intro rec hrec u hu
  rw [round_outputs_record_data m p rs rec hrec] at hu
  have h1 := mem_weight_data_fst _ _ _ u hu
  rwa [weight_score_fst, normalize_score_fst] at h1

theorem vote_uid_mem_scores (m : Scorer) (p : String) (rs : List (Uid × MinerResponse)) :
    ∀ uids ws, (round_outputs m p rs).vote = some (uids, ws) →
      ∀ u ∈ uids, u ∈ (build_score_entries m p rs).map Prod.fst := by
  intro uids ws hv u hu
  obtain ⟨h1, -⟩ := round_outputs_vote_args m p rs uids ws hv
  subst h1
  rcases List.mem_map.1 hu with ⟨x, hx, rfl⟩
  have hxw := List.mem_of_mem_filter hx
  have h2 : x.1 ∈ (weight_score (normalize_score (build_score_entries m p rs))).map Prod.fst :=
    List.mem_map_of_mem Prod.fst hxw
  rwa [weight_score_fst, normalize_score_fst] at h2

theorem sum_map_div (l : List (Uid × ℚ)) (t : ℚ) :
    (l.map fun e => e.2 / t).sum = (l.map Prod.snd).sum / t := by
  induction l with
  | nil => simp
  | cons a l ih => simp [ih, add_div]

theorem calculate_score_nonneg (m : Scorer) (img : Payload) (p : String)
    (hm : ∀ a b v, m a b = Except.ok v → 0 ≤ v) : 0 ≤ calculate_score m img p := by
  unfold calculate_score
  cases h : m img p with
  | ok v => exact hm img p v h
  | error e => exact le_refl 0

theorem build_entries_nonneg (m : Scorer) (p : String) (rs : List (Uid × MinerResponse))
    (hm : ∀ a b v, m a b = Except.ok v → 0 ≤ v)
    (he : ∀ r ∈ rs, 0 ≤ r.2.elapsed) :
    ∀ x ∈ build_score_entries m p rs, 0 ≤ x.2.1 ∧ 0 ≤ x.2.2 := by
  intro x hx
  rcases mem_build_score_entries m p rs x hx with ⟨r, hr, pld, hans, hemp, hz, hxe⟩
  subst hxe
  exact ⟨calculate_score_nonneg m pld p hm, he r hr⟩

theorem normalize_score_nonneg (e : List (Uid × ℚ × ℚ))
    (hs : ∀ x ∈ e, 0 ≤ x.2.1) (hel : ∀ x ∈ e, 0 ≤ x.2.2) :
    ∀ x ∈ normalize_score e, 0 ≤ x.2 := by
  intro x hx
  simp only [normalize_score] at hx
  rcases List.mem_map.1 hx with ⟨y, hy, rfl⟩
  have h1 : 0 ≤ (e.map fun z => z.2.1).sum :=
    List.sum_nonneg (by intro a ha; rcases List.mem_map.1 ha with ⟨z, hz, rfl⟩; exact hs z hz)
  have h2 : (0:ℚ) ≤ 1 / (1 + y.2.2) := by
    have h3 := hel y hy
    exact div_nonneg zero_le_one (by linarith)
  exact mul_nonneg (div_nonneg (hs y hy) h1) h2

theorem weight_score_bounds (n : List (Uid × ℚ)) (h : ∀ x ∈ n, 0 ≤ x.2) :
    ∀ w ∈ weight_score n, 0 ≤ w.2 ∧ w.2 ≤ 1 := by
  intro w hw
  simp only [weight_score] at hw
  rcases List.mem_map.1 hw with ⟨e, he, rfl⟩
  have hsnd : ∀ a ∈ n.map Prod.snd, 0 ≤ a := by
    intro a ha; rcases List.mem_map.1 ha with ⟨y, hy, rfl⟩; exact h y hy
  have ht0 : 0 ≤ (n.map Prod.snd).sum := List.sum_nonneg hsnd
  have hle : e.2 ≤ (n.map Prod.snd).sum :=
    List.single_le_sum hsnd e.2 (List.mem_map_of_mem Prod.snd he)
  constructor
  · exact div_nonneg (h e he) ht0
  · rcases eq_or_lt_of_le ht0 with h0 | h0
    · have he0 : e.2 = 0 := le_antisymm (by rw [← h0] at hle; exact hle) (h e he)
      rw [he0, zero_div]
      exact zero_le_one
    · exact (div_le_one h0).2 hle

theorem weight_score_sum_le_one (n : List (Uid × ℚ)) :
    ((weight_score n).map Prod.snd).sum ≤ 1 := by
  simp only [weight_score, List.map_map]
  have hc : (n.map (Prod.snd ∘ fun e => (e.1, e.2 / (n.map Prod.snd).sum))) =
      n.map (fun e => e.2 / (n.map Prod.snd).sum) := by
    simp [Function.comp]
  rw [hc, sum_map_div]
  by_cases hz : (n.map Prod.snd).sum = 0
  · simp [hz]
  · rw [div_self hz]

theorem filter_map_snd_sum_le (p : Uid × ℚ → Bool) (l : List (Uid × ℚ))
    (h : ∀ x ∈ l, 0 ≤ x.2) :
    ((l.filter p).map Prod.snd).sum ≤ (l.map Prod.snd).sum := by
  induction l with
  | nil => simp
  | cons a l ih =>
    have ha := h a (List.mem_cons_self a l)
    have ih2 := ih (fun x hx => h x (List.mem_cons_of_mem a hx))
    by_cases hp : p a = true
    · rw [List.filter_cons, if_pos hp]
      simp only [List.map_cons, List.sum_cons]
      linarith
    · rw [List.filter_cons, if_neg hp]
      simp only [List.map_cons, List.sum_cons]
      linarith

theorem dequeAppend_eq_drop (k : Nat) (d : List α) (x : α) :
    dequeAppend k d x = (d ++ [x]).drop ((d ++ [x]).length - k) := by
  unfold dequeAppend
  dsimp only
  split
  · rename_i h
    rw [Nat.sub_eq_zero_of_le h, List.drop_zero]
  · rfl

theorem dequeAppend_length_le (k : Nat) (d : List α) (x : α) :
    (dequeAppend k d x).length ≤ k := by
  unfold dequeAppend
  dsimp only
  split
  · rename_i h
    exact h
  · rename_i h
    rw [List.length_drop]
    omega

theorem foldl_dequeAppend_eq (k : Nat) (xs : List α) : ∀ d : List α, d.length ≤ k →
    List.foldl (dequeAppend k) d xs = (d ++ xs).drop ((d ++ xs).length - k) := by
  induction xs with
  | nil =>
    intro d hd
    simp [Nat.sub_eq_zero_of_le hd]
  | cons x xs ih =>
    intro d hd
    rw [List.foldl_cons, ih _ (dequeAppend_length_le k d x), dequeAppend_eq_drop]
    have hsplit : ((d ++ [x]) ++ xs).drop ((d ++ [x]).length - k)
        = ((d ++ [x]).drop ((d ++ [x]).length - k)) ++ xs := by
      rw [List.drop_append_eq_append_drop,
        Nat.sub_eq_zero_of_le (Nat.sub_le (d ++ [x]).length k), List.drop_zero]
    rw [← hsplit, List.length_drop, List.drop_drop]
    have hBxs : (d ++ [x]) ++ xs = d ++ x :: xs := by simp
    rw [hBxs]
    congr 1
    simp only [List.length_append, List.length_cons, List.length_nil]
    omega

theorem rs0_entries : build_score_entries byteSum "p" rs0 = [(1,2,1),(2,6,3)] := by
  norm_num [build_score_entries, rs0, score_entry, calculate_score, byteSum,
    List.filterMap_cons, List.filterMap_nil]

theorem rs0_vote : (round_outputs byteSum "p" rs0).vote = some ([1,2], [2/5, 3/5]) := by
  have h2 : normalize_score [(1,2,1),(2,6,3)] = [(1,1/8),(2,3/16)] := by
    norm_num [normalize_score]
  have h3 : weight_score [(1,1/8),(2,3/16)] = [(1,2/5),(2,3/5)] := by
    norm_num [weight_score]
  rw [round_outputs, rs0_entries]
  norm_num [h2, h3, weight_data]

/- Claim theorems. -/

/-- C1: under the spec's contract that backend scores and elapsed times
are non-negative, every weight submitted to the vote is in `[0,1]` and
the submitted weights sum to at most 1 (zero weights having been dropped
by the `v > 0` filter before emission; none is negative). -/
theorem emitted_weights_bounded (model : Scorer) (prompt : String)
    (responses : List (Uid × MinerResponse)) (o : Except String Unit)
    (hm : ∀ a b v, model a b = Except.ok v → 0 ≤ v)
    (he : ∀ r ∈ responses, 0 ≤ r.2.elapsed) :
    ∀ uids ws, (validate_step model prompt responses o).vote = some (uids, ws) →
      (∀ w ∈ ws, 0 ≤ w ∧ w ≤ 1) ∧ ws.sum ≤ 1 := by
  intro uids ws hv
  rw [validate_step_vote] at hv
  obtain ⟨-, hws⟩ := round_outputs_vote_args model prompt responses uids ws hv
  subst hws
  have hEnn := build_entries_nonneg model prompt responses hm he
  have hNnn : ∀ x ∈ normalize_score (build_score_entries model prompt responses), 0 ≤ x.2 :=
    normalize_score_nonneg _ (fun x hx => (hEnn x hx).1) (fun x hx => (hEnn x hx).2)
  have hWb := weight_score_bounds _ hNnn
  constructor
  · intro w hw
    rcases List.mem_map.1 hw with ⟨x, hx, rfl⟩
    exact hWb x (List.mem_of_mem_filter hx)
  · have hWnn : ∀ x ∈ weight_score (normalize_score (build_score_entries model prompt responses)),
        0 ≤ x.2 := fun x hx => (hWb x hx).1
    calc (((weight_score (normalize_score (build_score_entries model prompt responses))).filter
          fun e => decide (0 < e.2)).map Prod.snd).sum
        ≤ ((weight_score (normalize_score (build_score_entries model prompt responses))).map
            Prod.snd).sum := filter_map_snd_sum_le _ _ hWnn
      _ ≤ 1 := weight_score_sum_le_one _

/-- C1 witness: the concrete round on `rs0` emits the weights
`[2/5, 3/5]`, each in `[0,1]`, summing to 1. -/
theorem emitted_weights_bounded_witness :
    (∀ w ∈ ([2/5, 3/5] : List ℚ), 0 ≤ w ∧ w ≤ 1) ∧ ([2/5, 3/5] : List ℚ).sum ≤ 1 :=
  emitted_weights_bounded byteSum "p" rs0 (Except.ok ())
    (by intro a b v hv; injection hv with h; rw [← h]; positivity)
    (by intro r hr; simp [rs0] at hr; rcases hr with rfl | rfl <;> norm_num)
    [1,2] [2/5, 3/5] (by rw [validate_step_vote]; exact rs0_vote)

/-- C2: every uid appearing in the round record appended to
`weights_histories`, and every uid submitted to `c_client.vote`, also
appears in the round's `score_dict`: weights are derived from scores,
never invented. -/
theorem weights_only_for_scored_uids (model : Scorer) (prompt : String)
    (responses : List (Uid × MinerResponse)) (o : Except String Unit) :
    (∀ rec, (validate_step model prompt responses o).record = some rec →
      ∀ u ∈ rec.data.map (fun t => t.1),
        u ∈ (validate_step model prompt responses o).score_dict.map Prod.fst) ∧
    (∀ uids ws, (validate_step model prompt responses o).vote = some (uids, ws) →
      ∀ u ∈ uids, u ∈ (validate_step model prompt responses o).score_dict.map Prod.fst) := by
  constructor
  · intro rec hrec u hu
    rw [validate_step_record] at hrec
    rw [validate_step_score_dict, round_outputs_score_dict]
    exact record_uid_mem_scores model prompt responses rec hrec u hu
  · intro uids ws hv u hu
    rw [validate_step_vote] at hv
    rw [validate_step_score_dict, round_outputs_score_dict]
    exact vote_uid_mem_scores model prompt responses uids ws hv u hu

/-- C2 witness: on a concrete round, a uid submitted to the vote is in the
score set. -/
theorem weights_only_for_scored_uids_witness :
    1 ∈ (validate_step byteSum "p" rs0 (Except.ok ())).score_dict.map Prod.fst :=
  (weights_only_for_scored_uids byteSum "p" rs0 (Except.ok ())).2 [1,2] [2/5, 3/5]
    (by rw [validate_step_vote]; exact rs0_vote) 1 (by norm_num)

/-- C3: a peer whose payload is absent (or empty), or whose raw score is
`0` — including when the backend raises and `calculate_score` converts the
exception to `0` — appears in neither the round's score set, nor its
recorded weight set, nor the submitted vote; the round function still
returns (no failure aborts it). -/
theorem dropped_peer_excluded (model : Scorer) (prompt : String)
    (responses : List (Uid × MinerResponse)) (o : Except String Unit) (uid : Uid)
    (h : ∀ r ∈ responses, r.1 = uid → is_dropped model prompt r = true) :
    uid ∉ (validate_step model prompt responses o).score_dict.map Prod.fst ∧
    (∀ rec, (validate_step model prompt responses o).record = some rec →
      uid ∉ rec.data.map (fun t => t.1)) ∧
    (∀ uids ws, (validate_step model prompt responses o).vote = some (uids, ws) →
      uid ∉ uids) := by
  have hkey : uid ∉ (build_score_entries model prompt responses).map Prod.fst := by
    intro hu
    rcases List.mem_map.1 hu with ⟨x, hx, hx1⟩
    rcases mem_build_score_entries model prompt responses x hx with
      ⟨r, hr, pld, hans, hemp, hz, hxe⟩
    have hr1 : r.1 = uid := by rw [hxe] at hx1; exact hx1
    have hd := h r hr hr1
    simp only [is_dropped, hans] at hd
    simp [hemp, hz] at hd
  refine ⟨?_, ?_, ?_⟩
  · rw [validate_step_score_dict, round_outputs_score_dict]
    exact hkey
  · intro rec hrec hu
    rw [validate_step_record] at hrec
    exact hkey (record_uid_mem_scores model prompt responses rec hrec uid hu)
  · intro uids ws hv hu
    rw [validate_step_vote] at hv
    exact hkey (vote_uid_mem_scores model prompt responses uids ws hv uid hu)

/-- C3 witness: uid 5, whose payload is absent in `rs1`, is not in the
round's score set. -/
theorem dropped_peer_excluded_witness :
    5 ∉ (validate_step byteSum "p" rs1 (Except.ok ())).score_dict.map Prod.fst :=
  (dropped_peer_excluded byteSum "p" rs1 (Except.ok ()) 5 (by
    intro r hr
    simp only [rs1, rs0, List.cons_append, List.nil_append, List.mem_cons,
      List.not_mem_nil, or_false] at hr
    rcases hr with rfl | rfl | rfl
    · intro h5; exact absurd h5 (by norm_num)
    · intro h5; exact absurd h5 (by norm_num)
    · intro _; rfl)).1

/-- C4: a round in which no score entry survives completes without
throwing, appends no history record, prepares no weights and makes no vote
submission call. -/
theorem empty_round_skips_everything (model : Scorer) (prompt : String)
    (responses : List (Uid × MinerResponse)) (o : Except String Unit)
    (h : build_score_entries model prompt responses = []) :
    validate_step model prompt responses o =
      { score_dict := [], record := none, vote := none, vote_failed := false } := by
  have hr : round_outputs model prompt responses =
      { score_dict := [], record := none, vote := none, vote_failed := false } := by
    simp [round_outputs, h]
  unfold validate_step
  rw [hr]

/-- C4 witness: a round where the only miner timed out produces the empty
outcome. -/
theorem empty_round_skips_everything_witness :
    validate_step byteSum "p" rsBad (Except.ok ()) =
      { score_dict := [], record := none, vote := none, vote_failed := false } :=
  empty_round_skips_everything byteSum "p" rsBad (Except.ok ())
    (by simp [build_score_entries, rsBad, score_entry, List.filterMap_cons,
      List.filterMap_nil])

/-- C9: a failing `c_client.vote` call changes nothing about the round
except the absorbed-error flag: the history record (appended before the
submission attempt), the prepared vote arguments and the score set are the
same as under a successful submission, `validate_step` still returns (the
exception is caught at lines 129-130), and whenever the vote was attempted
the round record had already been appended. -/
theorem vote_failure_preserves_round (model : Scorer) (prompt : String)
    (responses : List (Uid × MinerResponse)) (msg : String) :
    (validate_step model prompt responses (Except.error msg)).record =
      (validate_step model prompt responses (Except.ok ())).record ∧
    (validate_step model prompt responses (Except.error msg)).vote =
      (validate_step model prompt responses (Except.ok ())).vote ∧
    (validate_step model prompt responses (Except.error msg)).score_dict =
      (validate_step model prompt responses (Except.ok ())).score_dict ∧
    ∀ v, (validate_step model prompt responses (Except.error msg)).vote = some v →
      ∃ rec, (validate_step model prompt responses (Except.error msg)).record = some rec := by
  refine ⟨?_, ?_, ?_, ?_⟩
  · rw [validate_step_record, validate_step_record]
  · rw [validate_step_vote, validate_step_vote]
  · rw [validate_step_score_dict, validate_step_score_dict]
  · intro v hv
    rw [validate_step_vote] at hv
    rw [validate_step_record]
    exact round_outputs_vote_some_record model prompt responses v hv

/-- C9 witness: on a concrete round that reaches submission, an erroring
vote still leaves the appended record in place. -/
theorem vote_failure_preserves_round_witness :
    ∃ rec, (validate_step byteSum "p" rs0 (Except.error "boom")).record = some rec := by
  have h1 : build_score_entries byteSum "p" rs0 = [(1,2,1),(2,6,3)] := by
    norm_num [build_score_entries, rs0, score_entry, calculate_score, byteSum,
      List.filterMap_cons, List.filterMap_nil]
  have h2 : normalize_score [(1,2,1),(2,6,3)] = [(1,1/8),(2,3/16)] := by
    norm_num [normalize_score]
  have h3 : weight_score [(1,1/8),(2,3/16)] = [(1,2/5),(2,3/5)] := by
    norm_num [weight_score]
  have hv : (validate_step byteSum "p" rs0 (Except.error "boom")).vote
      = some ([1,2], [2/5, 3/5]) := by
    rw [validate_step_vote, round_outputs, h1]
    norm_num [h2, h3, weight_data]
  exact (vote_failure_preserves_round byteSum "p" rs0 "boom").2.2.2 ([1,2], [2/5, 3/5]) hv

/-- C6: `weights_histories = deque(maxlen=10)` is FIFO-bounded: any append
sequence leaves at most 10 records, and after 11 appends to the empty
deque the oldest record is gone and the newest 10 remain in insertion
order. -/
theorem weights_histories_bounded (xs : List WeightHistory)
    (h : xs.length = weights_histories_maxlen + 1) :
    (∀ ys : List WeightHistory,
      (List.foldl (dequeAppend weights_histories_maxlen) [] ys).length ≤
        weights_histories_maxlen) ∧
    List.foldl (dequeAppend weights_histories_maxlen) [] xs = xs.drop 1 ∧
    (xs.Nodup → ∀ r, xs.head? = some r →
      r ∉ List.foldl (dequeAppend weights_histories_maxlen) [] xs) := by
  have hfold : ∀ ys : List WeightHistory,
      List.foldl (dequeAppend weights_histories_maxlen) [] ys =
        ys.drop (ys.length - weights_histories_maxlen) := by
    intro ys
    have h2 := foldl_dequeAppend_eq weights_histories_maxlen ys [] (by simp)
    simpa using h2
  have hxs : List.foldl (dequeAppend weights_histories_maxlen) [] xs = xs.drop 1 := by
    rw [hfold, h]
    simp
  refine ⟨?_, hxs, ?_⟩
  · intro ys
    rw [hfold, List.length_drop]
    omega
  · intro hnd r hr hmem
    rw [hxs] at hmem
    cases xs with
    | nil => simp at hr
    | cons a l =>
      simp only [List.head?_cons, Option.some.injEq] at hr
      subst hr
      simp only [List.drop_one, List.tail_cons] at hmem
      exact (List.nodup_cons.1 hnd).1 hmem

/-- C6 witness: eleven appends to the empty history leave exactly the last
ten records. -/
theorem weights_histories_bounded_witness :
    List.foldl (dequeAppend weights_histories_maxlen) [] xs11 = xs11.drop 1 :=
  (weights_histories_bounded xs11 (by simp [xs11, weights_histories_maxlen])).2.1

/-- C7: for every completed round with duration `d` and target interval
`T`, `validation_loop` sleeps exactly `max 0 (T - d)` before the next
round: `T - d` when the round was faster than the interval, and nothing at
all when it overran. -/
theorem sleep_time_eq_max (d T : ℚ) : sleep_time d T = max 0 (T - d) := by
  unfold sleep_time
  split
  · exact (max_eq_right (by linarith)).symm
  · exact (max_eq_left (by linarith)).symm

/-- C8: the scheduler loop of `validation_loop` completes one iteration per
round outcome whatever those outcomes are — an exception raised inside a
round is caught at the round boundary (yielding a zero sleep) and the loop
goes on to process every remaining round; it never terminates early. -/
theorem validation_loop_never_dies (interval : ℚ) (outcomes : List RoundOutcome) :
    (validation_loop_run interval outcomes).length = outcomes.length ∧
    ∀ (msg : String) (e : ℚ) (rest : List RoundOutcome),
      validation_loop_run interval (RoundOutcome.failed msg e :: rest) =
        0 :: validation_loop_run interval rest := by
  constructor
  · induction outcomes with
    | nil => rfl
    | cons o rest ih => simpa [validation_loop_run] using ih
  · intro msg e rest
    rfl

/-- C10: `Validator.__init__` raises `ValueError` exactly when
`settings.model` is `"api"` and `settings.api_url` is unset (`None` or
empty); with any other model value, or with a non-empty `api_url`, backend
selection succeeds. -/
theorem select_model_api_url_check (s : ValidatorSettings) :
    (s.model = "api" ∧ (s.api_url = none ∨ s.api_url = some "") →
      select_model s = Except.error "API URL is required when using api model") ∧
    ((s.model ≠ "api" ∨ ∃ u, s.api_url = some u ∧ u ≠ "") →
      ∃ m, select_model s = Except.ok m) := by
  constructor
  · rintro ⟨hm, hu⟩
    unfold select_model
    rw [hm]
    rcases hu with hu | hu <;> simp [hu]
  · intro h
    unfold select_model
    by_cases hclip : s.model = "clip"
    · simp [hclip]
    · by_cases hapi : s.model = "api"
      · rcases h with h | ⟨u, hu, hne⟩
        · exact absurd hapi h
        · simp [hclip, hapi, hu, hne]
      · simp [hclip, hapi]

/-- C10 witness: with `model = "api"` and the default `api_url = none` the
constructor check raises; with `api_url` set it selects a backend. -/
theorem select_model_api_url_check_witness :
    select_model { model := "api" } = Except.error "API URL is required when using api model" ∧
    ∃ m, select_model { model := "api", api_url := some "http://x" } = Except.ok m :=
  ⟨(select_model_api_url_check _).1 ⟨rfl, Or.inl rfl⟩,
   (select_model_api_url_check _).2 (Or.inr ⟨"http://x", rfl, by decide⟩)⟩

/-- C5 counterexample: `CLIP.get_similarity` returns the raw logit sum of
the underlying model with no clamping, so a backend whose logit sum is
negative yields a score strictly below `0`, contradicting the claim that
the score function returns a value `≥ 0` for every payload and prompt. -/
theorem clip_similarity_can_be_negative :
    CLIP.get_similarity neg_clip [0] "cat" < 0 := by
  simp [CLIP.get_similarity, neg_clip]

/-- C5 (amended): the scorer returns whatever the backend computes —
`get_similarity` is the unclamped logit sum, and `calculate_score` maps
exceptions to `0` — so the returned score is non-negative whenever the
backend output is non-negative, but the code itself enforces no lower
bound. -/
theorem score_nonneg_of_backend_nonneg (m : CLIPModelFn) (file : Payload)
    (prompt : String) (scorer : Scorer) (img : Payload) (pr : String)
    (h1 : ∀ q ∈ m.logits_per_image file prompt, 0 ≤ q)
    (h2 : ∀ v, scorer img pr = Except.ok v → 0 ≤ v) :
    0 ≤ CLIP.get_similarity m file prompt ∧ 0 ≤ calculate_score scorer img pr := by
  constructor
  · exact List.sum_nonneg h1
  · unfold calculate_score
    cases h : scorer img pr with
    | ok v => exact h2 v h
    | error e => exact le_refl 0

/-- C5 amended-claim witness at a non-negative backend. -/
theorem score_nonneg_of_backend_nonneg_witness :
    0 ≤ CLIP.get_similarity pos_clip [0] "cat" ∧ 0 ≤ calculate_score okTwo [0] "cat" :=
  score_nonneg_of_backend_nonneg pos_clip [0] "cat" okTwo [0] "cat"
    (by decide)
    (fun v hv => by
      injection hv with h
      rw [← h]
      decide)

end Mosaic
